import Mathlib

/-!
Shallow embedding of the `reference` crate (an identifier-indexed entity
store) for verification. The embedding follows `src/array.rs`, `src/error.rs`
and `src/lib.rs`:

* `RArray` models `Array<T>` (array.rs): a fixed-capacity, append-only array.
  Memory is modelled as the list `data` of initialized elements; the stable
  `&mut T` references the Rust code hands out are modelled as positions
  (indices) into that list, and reads/writes through such a reference are
  reads/writes of the list at that position in the current state.
* `ArrayError` models `array::Error` (array.rs).
* `InsertMsg` models the two distinct `format!` messages that
  `Reference::insert` puts into `Error::InsertError` (lib.rs).
* `RefError` models `Error<T>` (error.rs); the `E` parameter is the type of
  the boxed cause of `UpdateError`.
* `Reference` models `Reference<T>` (lib.rs): the array of `Option<T>` slots,
  the `vids` hash map from identifier to slot position (modelled as an
  association list with at-most-once keys), and the `effective_len` counter.
  `Id<T>` is its `i32` payload, modelled as `Int` (no arithmetic is ever
  performed on it).
* An `Entry<T>` (lib.rs) is `&'static mut Option<T>` — a direct alias of one
  slot — and is modelled as the slot position; `loadEntry` is the observable
  content of dereferencing it in a given state (`Deref`/`as_ref`),
  `replaceEntry` is `Entry::replace`, `updateEntry` is `Entry::update` where
  the Rust closure `FnMut(&mut Option<T>) -> Result<(), E>` is modelled as a
  function returning both the content it leaves in the slot and its result.
* `runIterFrom` models the iterator of `Reference::iter` (lib.rs `Iter` over
  array.rs `Iter`): the length is captured at creation (`Reference.iterStart`)
  and each `next` reads the backing array of the current state.
-/

/-- Reads a list at an index, `none` when out of bounds (the observable
behaviour of reading the modelled memory). -/
def listRead {α : Type} : List α → Nat → Option α
  | [], _ => none
  | a :: _, 0 => some a
  | _ :: l, n + 1 => listRead l n

/-- Models `array::Error` from array.rs. -/
inductive ArrayError where
  | capacityExceeded (capacity : Nat)
deriving DecidableEq, Repr

/-- Models `Array<T>` from array.rs: preallocated capacity, initialized
elements `data` (positions `0..len`), append-only. -/
structure RArray (T : Type) where
  data : List T
  capacity : Nat
deriving DecidableEq, Repr

namespace RArray

/-- Models `Array::new(capacity)`: no initialized elements yet. -/
def new (T : Type) (capacity : Nat) : RArray T :=
  { data := [], capacity := capacity }

/-- Models `Array::len`. -/
def len {T : Type} (a : RArray T) : Nat :=
  a.data.length

/-- Models `Array::push`: appends at position `len` and returns that stable
position, or fails with `CapacityExceeded {capacity}` when `len >= capacity`
(nothing is written in that case). -/
def push {T : Type} (a : RArray T) (item : T) : RArray T × Except ArrayError Nat :=
  if a.len ≥ a.capacity then
    (a, Except.error (ArrayError.capacityExceeded a.capacity))
  else
    ({ a with data := a.data ++ [item] }, Except.ok a.len)

/-- Models `Array::get_mut(idx)`: the returned `&'static mut T` is modelled
as the position itself, `none` when `idx` is at or beyond `len`. -/
def getMut {T : Type} (a : RArray T) (idx : Nat) : Option Nat :=
  if idx < a.len then some idx else none

/-- Reading the element at a position (dereferencing a reference obtained
from `push`/`get_mut`) in the current state. -/
def read {T : Type} (a : RArray T) (idx : Nat) : Option T :=
  listRead a.data idx

/-- Writing through a reference at a position in the current state. -/
def write {T : Type} (a : RArray T) (idx : Nat) (v : T) : RArray T :=
  { a with data := a.data.set idx v }

end RArray

/-- Models the two `format!` messages `Reference::insert` wraps in
`Error::InsertError` (lib.rs): `"Failed to add id {id} because it already
exists"` and `"Index {vid} is out of bounds"`. -/
inductive InsertMsg where
  | alreadyExists (id : Int)
  | indexOutOfBounds (vid : Nat)
deriving DecidableEq, Repr

/-- Models `Error<T>` from error.rs; `E` is the type of the boxed cause
carried by `UpdateError` (the `_Phantom` variant is uninhabited by intent
and omitted). -/
inductive RefError (E : Type) where
  | insertError (msg : InsertMsg)
  | updateError (cause : E)
  | other (cause : ArrayError)
deriving DecidableEq, Repr

/-- Association-list lookup modelling `HashMap::get` on the `vids` map
(first binding of the key wins). -/
def lookupAL (k : Int) : List (Int × Nat) → Option Nat
  | [] => none
  | (k', v) :: rest => if k' = k then some v else lookupAL k rest

/-- Models `HashMap::contains_key` on the `vids` map. -/
def containsAL (k : Int) (l : List (Int × Nat)) : Bool :=
  l.any (fun p => decide (p.1 = k))

/-- Models `HashMap::insert` on the `vids` map: binds `k` to `v`, replacing
any previous binding of `k`. -/
def insertAL (k : Int) (v : Nat) (l : List (Int × Nat)) : List (Int × Nat) :=
  (k, v) :: l.filter (fun p => decide (p.1 ≠ k))

/-- Models `Reference<T>` from lib.rs. -/
structure Reference (T : Type) where
  items : RArray (Option T)
  vids : List (Int × Nat)
  effectiveLen : Nat
deriving DecidableEq, Repr

namespace Reference

/-- Models `Reference::new(capacity)`: builds `Array::new(capacity)`, pushes
the zero element `None` (position 0) and maps identifier `0` to position `0`.
The Rust code panics (`expect`) when that push fails, which happens exactly
when `capacity == 0`; the panic is modelled as `none`. -/
def new (T : Type) (capacity : Nat) : Option (Reference T) :=
  let items := RArray.new (Option T) capacity
  match items.push none with
  | (_, Except.error _) => none
  | (items1, Except.ok _) =>
      some { items := items1, vids := insertAL 0 0 [], effectiveLen := 0 }

/-- Models `Reference::add`: pushes `maybe_item` at position `vid = len`,
registers `id ↦ vid`, bumps `effective_len`, and returns the entry (the
position). A push failure is wrapped as `Error::Other` and leaves the state
unchanged. -/
def add (E : Type) {T : Type} (s : Reference T) (id : Int) (maybeItem : Option T) :
    Reference T × Except (RefError E) Nat :=
  let vid := s.items.len
  match s.items.push maybeItem with
  | (_, Except.error e) => (s, Except.error (RefError.other e))
  | (items1, Except.ok _) =>
      ({ items := items1
         vids := insertAL id vid s.vids
         effectiveLen := s.effectiveLen + 1 },
       Except.ok vid)

/-- Models `Reference::insert`: looks the item's id up in `vids`; the guard
`maybe_vid.is_none() && vids.contains_key(&id)` returns the
"already exists" `InsertError`; an unknown id goes through `add`; a known id
has its slot overwritten in place (the "out of bounds" `InsertError` when the
recorded position is not resolvable). -/
def insert (E : Type) {T : Type} (idOf : T → Int) (s : Reference T) (item : T) :
    Reference T × Except (RefError E) Nat :=
  let id := idOf item
  let maybeVid := lookupAL id s.vids
  if maybeVid = none ∧ containsAL id s.vids = true then
    (s, Except.error (RefError.insertError (InsertMsg.alreadyExists id)))
  else
    match maybeVid with
    | none => add E s id (some item)
    | some vid =>
        match s.items.getMut vid with
        | none => (s, Except.error (RefError.insertError (InsertMsg.indexOutOfBounds vid)))
        | some p =>
            ({ s with
                items := s.items.write p (some item)
                effectiveLen := s.effectiveLen + 1 },
             Except.ok p)

/-- Models `Reference::get`: `vids` lookup, then a bounds-checked wrap of the
slot as an entry (the position). -/
def get {T : Type} (s : Reference T) (id : Int) : Option Nat :=
  match lookupAL id s.vids with
  | none => none
  | some vid => s.items.getMut vid

/-- Models `Reference::get_or_reserve`: `get`, and on a miss `add` with an
empty (`None`) slot. -/
def getOrReserve (E : Type) {T : Type} (s : Reference T) (id : Int) :
    Reference T × Except (RefError E) Nat :=
  match get s id with
  | some vid => (s, Except.ok vid)
  | none => add E s id none

/-- Models the creation of `Reference::iter`'s iterator: the backing array
length is captured once, the cursor starts at 0. -/
def iterStart {T : Type} (s : Reference T) : Nat × Nat :=
  (s.items.len, 0)

end Reference

/-- Observable content of dereferencing an `Entry` (lib.rs `Deref for
Entry`): the slot's current `Option<T>` in state `s`. Out-of-range positions
never arise for entries the code hands out. -/
def loadEntry {T : Type} (s : Reference T) (pos : Nat) : Option T :=
  match s.items.read pos with
  | none => none
  | some slot => slot

/-- Models `Entry::replace`: `*self.0 = Some(item)`. -/
def replaceEntry {T : Type} (s : Reference T) (pos : Nat) (item : T) : Reference T :=
  { s with items := s.items.write pos (some item) }

/-- Models `Entry::update`: the closure `F: Fn(&mut Option<T>) -> Result<(), E>`
is modelled as returning both the content it leaves in the slot and its
result. Whatever the closure wrote stays in the slot; an `Err` result is
wrapped as `Error::UpdateError` with the original cause. -/
def updateEntry {T E : Type} (s : Reference T) (pos : Nat)
    (f : Option T → Option T × Except E Unit) :
    Reference T × Except (RefError E) Unit :=
  let r := f (loadEntry s pos)
  ({ s with items := s.items.write pos r.1 },
   match r.2 with
   | Except.ok _ => Except.ok ()
   | Except.error e => Except.error (RefError.updateError e))

/-- Models running the iterator (lib.rs `Iter` over array.rs `Iter`) from
cursor `idx` against the current state `s`, with `len` the length captured at
creation: each step reads the slot at the cursor and advances. -/
def runIterFrom {T : Type} (s : Reference T) (len idx : Nat) : List (Option T) :=
  if idx < len then loadEntry s idx :: runIterFrom s len (idx + 1) else []
termination_by len - idx

/-- A concrete entity type mirroring `Foo` from tests/reference.rs: an id and
a payload (`name`, modelled as a number). -/
structure Foo where
  id : Int
  name : Nat
deriving DecidableEq, Repr

/-- The `Identifiable` implementation of `Foo`. -/
def idFoo (f : Foo) : Int := f.id

/-- A concrete store of `Foo` with the given capacity (the `new` that the
tests use; capacity 0 never occurs there, the fallback is irrelevant). -/
def mkRef (c : Nat) : Reference Foo :=
  (Reference.new Foo c).getD
    { items := RArray.new (Option Foo) 0, vids := [], effectiveLen := 0 }

/-- Invariant of a `Reference`: all positions in the `vids` map are within
the initialized part of the backing array. -/
def StoreInv {T : Type} (s : Reference T) : Prop :=
  ∀ p ∈ s.vids, p.2 < s.items.len

instance {T : Type} (s : Reference T) : Decidable (StoreInv s) :=
  inferInstanceAs (Decidable (∀ p ∈ s.vids, p.2 < s.items.len))

/-- States reachable from `Reference::new` by any sequence of `insert`,
`get` (which does not change the state), `get_or_reserve`, `Entry::replace`
and `Entry::update` operations. The error-cause type of the closures is
fixed to `Unit`; the successor state never depends on it. -/
inductive Reach {T : Type} (idOf : T → Int) : Reference T → Prop where
  | new (c : Nat) (s : Reference T) : Reference.new T c = some s → Reach idOf s
  | insert (s s' : Reference T) (item : T) (r : Except (RefError Unit) Nat) :
      Reach idOf s → Reference.insert Unit idOf s item = (s', r) → Reach idOf s'
  | reserve (s s' : Reference T) (id : Int) (r : Except (RefError Unit) Nat) :
      Reach idOf s → Reference.getOrReserve Unit s id = (s', r) → Reach idOf s'
  | replace (s : Reference T) (pos : Nat) (item : T) :
      Reach idOf s → Reach idOf (replaceEntry s pos item)
  | update (s : Reference T) (pos : Nat) (f : Option T → Option T × Except Unit Unit) :
      Reach idOf s → Reach idOf (updateEntry s pos f).1


/-- States reachable while never writing through identifier 0's slot:
`new`, `insert` of items with nonzero identifier, `get` (no state change),
`get_or_reserve` of nonzero identifiers, and `Entry::replace`/`Entry::update`
through entries at nonzero positions (every entry obtained for a nonzero
identifier sits at a nonzero position, see `reachNZ_sentinel`). The
error-cause type of the operations is fixed to `Unit`; the successor state
never depends on it. -/
inductive ReachNZ {T : Type} (idOf : T → Int) : Reference T → Prop where
  | new (c : Nat) (s : Reference T) : Reference.new T c = some s → ReachNZ idOf s
  | insert (s s' : Reference T) (item : T) (r : Except (RefError Unit) Nat) :
      ReachNZ idOf s → idOf item ≠ 0 → Reference.insert Unit idOf s item = (s', r) →
      ReachNZ idOf s'
  | reserve (s s' : Reference T) (id : Int) (r : Except (RefError Unit) Nat) :
      ReachNZ idOf s → id ≠ 0 → Reference.getOrReserve Unit s id = (s', r) →
      ReachNZ idOf s'
  | replace (s : Reference T) (pos : Nat) (item : T) :
      ReachNZ idOf s → pos ≠ 0 → ReachNZ idOf (replaceEntry s pos item)
  | update (s : Reference T) (pos : Nat) (f : Option T → Option T × Except Unit Unit) :
      ReachNZ idOf s → pos ≠ 0 → ReachNZ idOf (updateEntry s pos f).1

/-- The sentinel invariant maintained along `ReachNZ`: identifier 0 is mapped
to position 0, position 0 is initialized and holds the empty slot, all mapped
positions are in bounds, and only identifier 0 is mapped to position 0. -/
def SentinelInv {T : Type} (s : Reference T) : Prop :=
  lookupAL 0 s.vids = some 0 ∧ 0 < s.items.len ∧ loadEntry s 0 = none ∧
    StoreInv s ∧ (∀ p ∈ s.vids, p.2 = 0 → p.1 = 0)

instance {T : Type} [DecidableEq T] (s : Reference T) : Decidable (SentinelInv s) :=
  inferInstanceAs (Decidable (_ ∧ _ ∧ _ ∧ _ ∧ ∀ p ∈ s.vids, p.2 = 0 → p.1 = 0))

/-- Sequentially inserts a list of items (stopping at the first error), as a
caller of `Reference::insert` would. -/
def insertAll {T : Type} (idOf : T → Int) (s : Reference T) :
    List T → Except (RefError Unit) (Reference T)
  | [] => Except.ok s
  | item :: rest =>
    match Reference.insert Unit idOf s item with
    | (s', Except.ok _) => insertAll idOf s' rest
    | (_, Except.error e) => Except.error e

/-- Extracts the state of a successful `insertAll`, with a fallback for the
error case. -/
def okState {T : Type} (s : Reference T) (r : Except (RefError Unit) (Reference T)) :
    Reference T :=
  match r with
  | Except.ok s2 => s2
  | Except.error _ => s

/-- A capacity-2 store of `Foo` with identifier 1 reserved (slot 1 empty). -/
def sRes1 : Reference Foo := (Reference.getOrReserve Unit (mkRef 2) 1).1

/-- A capacity-3 store of `Foo` holding the item `{id 1, name 5}` at slot 1. -/
def sIns1 : Reference Foo := (Reference.insert Unit idFoo (mkRef 3) ⟨1, 5⟩).1

/-- An update closure that overwrites its slot with `{id 1, name 99}` and then
fails with cause `7`. -/
def fBad : Option Foo → Option Foo × Except Nat Unit :=
  fun _ => (some ⟨1, 99⟩, Except.error 7)

/-- An update closure that leaves its slot untouched and fails with cause `3`. -/
def fKeep : Option Foo → Option Foo × Except Nat Unit :=
  fun x => (x, Except.error 3)

/-- A capacity-4 store of `Foo` holding `{id 1}`; its backing array has
length 2 (an iterator created here captures length 2). -/
def sGrow1 : Reference Foo := (Reference.insert Unit idFoo (mkRef 4) ⟨1, 0⟩).1

/-- `sGrow1` after also inserting `{id 4}` and reserving identifier 3; its
backing array has length 4. -/
def sGrow2 : Reference Foo :=
  (Reference.getOrReserve Unit ((Reference.insert Unit idFoo sGrow1 ⟨4, 0⟩).1) 3).1

/-! Basic lemmas about `listRead`, `List.set` and the association-list
operations modelling the `vids` hash map. -/

theorem listRead_append_left {α : Type} (l m : List α) (n : Nat) (h : n < l.length) :
    listRead (l ++ m) n = listRead l n := by
  induction l generalizing n with
  | nil => exact absurd h (Nat.not_lt_zero n)
  | cons a l ih =>
    cases n with
    | zero => rfl
    | succ n => exact ih n (Nat.lt_of_succ_lt_succ h)

theorem listRead_append_self {α : Type} (l : List α) (x : α) :
    listRead (l ++ [x]) l.length = some x := by
  induction l with
  | nil => rfl
  | cons a l ih => simpa using ih

theorem listRead_set_self {α : Type} (l : List α) (n : Nat) (v : α) (h : n < l.length) :
    listRead (l.set n v) n = some v := by
  induction l generalizing n with
  | nil => exact absurd h (Nat.not_lt_zero n)
  | cons a l ih =>
    cases n with
    | zero => rfl
    | succ n => exact ih n (Nat.lt_of_succ_lt_succ h)

theorem listRead_set_ne {α : Type} (l : List α) (m n : Nat) (v : α) (h : m ≠ n) :
    listRead (l.set n v) m = listRead l m := by
  induction l generalizing m n with
  | nil => rfl
  | cons a l ih =>
    cases n with
    | zero =>
      cases m with
      | zero => exact absurd rfl h
      | succ m => rfl
    | succ n =>
      cases m with
      | zero => rfl
      | succ m => exact ih m n (fun hh => h (congrArg Nat.succ hh))

theorem listRead_getElem {α : Type} (l : List α) (n : Nat) (h : n < l.length) :
    listRead l n = some (l.get ⟨n, h⟩) := by
  induction l generalizing n with
  | nil => exact absurd h (Nat.not_lt_zero n)
  | cons a l ih =>
    cases n with
    | zero => rfl
    | succ n => exact ih n (Nat.lt_of_succ_lt_succ h)

theorem listRead_eq_none {α : Type} (l : List α) (n : Nat) (h : l.length ≤ n) :
    listRead l n = none := by
  induction l generalizing n with
  | nil => rfl
  | cons a l ih =>
    cases n with
    | zero => simp at h
    | succ n => exact ih n (Nat.le_of_succ_le_succ h)

theorem lookupAL_mem {k : Int} {v : Nat} {l : List (Int × Nat)} :
    lookupAL k l = some v → (k, v) ∈ l := by
  induction l with
  | nil => intro h; simp [lookupAL] at h
  | cons p rest ih =>
    obtain ⟨k', v'⟩ := p
    intro h
    by_cases hk : k' = k
    · subst hk
      simp [lookupAL] at h
      subst h
      exact List.mem_cons_self _ _
    · simp [lookupAL, hk] at h
      exact List.mem_cons_of_mem _ (ih h)

theorem lookupAL_filter_ne (k k' : Int) (l : List (Int × Nat)) (h : k' ≠ k) :
    lookupAL k' (l.filter (fun p => !decide (p.1 = k))) = lookupAL k' l := by
  induction l with
  | nil => rfl
  | cons p rest ih =>
    obtain ⟨k₁, v₁⟩ := p
    by_cases hk : k₁ = k
    · subst hk
      have hne : ¬(k₁ = k') := fun hh => h hh.symm
      simp [lookupAL, hne, ih]
    · by_cases hk' : k₁ = k'
      · subst hk'
        simp [lookupAL, hk]
      · simp [lookupAL, hk, hk', ih]

theorem lookupAL_insertAL_self (k : Int) (v : Nat) (l : List (Int × Nat)) :
    lookupAL k (insertAL k v l) = some v := by
  simp [insertAL, lookupAL]

theorem lookupAL_insertAL_ne (k k' : Int) (v : Nat) (l : List (Int × Nat)) (h : k' ≠ k) :
    lookupAL k' (insertAL k v l) = lookupAL k' l := by
  have hne : ¬(k = k') := fun hh => h (hh ▸ rfl)
  simp [insertAL, lookupAL, hne, lookupAL_filter_ne k k' l h]

theorem containsAL_false_of_lookup_none {k : Int} {l : List (Int × Nat)} :
    lookupAL k l = none → containsAL k l = false := by
  induction l with
  | nil => intro _; rfl
  | cons p rest ih =>
    obtain ⟨k', v'⟩ := p
    intro h
    by_cases hk : k' = k
    · simp [lookupAL, hk] at h
    · simp [lookupAL, hk] at h
      show ((k', v') :: rest).any (fun p => decide (p.1 = k)) = false
      rw [List.any_cons]
      have h1 : rest.any (fun p => decide (p.1 = k)) = false := ih h
      rw [h1, decide_eq_false hk]
      rfl

/-! Characterization lemmas for the array and store operations. -/

theorem RArray.push_ok {T : Type} (a : RArray T) (x : T) (h : a.len < a.capacity) :
    a.push x = ({ data := a.data ++ [x], capacity := a.capacity }, Except.ok a.len) := by
  simp [RArray.push, Nat.not_le.mpr h]

theorem RArray.push_full {T : Type} (a : RArray T) (x : T) (h : a.capacity ≤ a.len) :
    a.push x = (a, Except.error (ArrayError.capacityExceeded a.capacity)) := by
  simp [RArray.push, h]

theorem RArray.read_write_self {T : Type} (a : RArray T) (idx : Nat) (v : T)
    (h : idx < a.len) : (a.write idx v).read idx = some v :=
  listRead_set_self a.data idx v h

theorem RArray.read_write_ne {T : Type} (a : RArray T) (i j : Nat) (v : T)
    (h : i ≠ j) : (a.write j v).read i = a.read i :=
  listRead_set_ne a.data i j v h

theorem RArray.read_append_left {T : Type} (a : RArray T) (x : T) (n : Nat)
    (h : n < a.len) :
    listRead (a.data ++ [x]) n = a.read n :=
  listRead_append_left a.data [x] n h

theorem loadEntry_of_read_some {T : Type} {s : Reference T} {pos : Nat} {slot : Option T}
    (h : s.items.read pos = some slot) : loadEntry s pos = slot := by
  simp [loadEntry, h]

theorem Reference.add_ok (E : Type) {T : Type} (s : Reference T) (id : Int)
    (mi : Option T) (h : s.items.len < s.items.capacity) :
    Reference.add E s id mi =
      ({ items := { data := s.items.data ++ [mi], capacity := s.items.capacity }
         vids := insertAL id s.items.len s.vids
         effectiveLen := s.effectiveLen + 1 },
       Except.ok s.items.len) := by
  simp [Reference.add, RArray.push_ok s.items mi h]

theorem Reference.add_full (E : Type) {T : Type} (s : Reference T) (id : Int)
    (mi : Option T) (h : s.items.capacity ≤ s.items.len) :
    Reference.add E s id mi =
      (s, Except.error (RefError.other (ArrayError.capacityExceeded s.items.capacity))) := by
  simp [Reference.add, RArray.push_full s.items mi h]

theorem Reference.insert_lookup_none (E : Type) {T : Type} (idOf : T → Int)
    (s : Reference T) (item : T) (h : lookupAL (idOf item) s.vids = none) :
    Reference.insert E idOf s item = Reference.add E s (idOf item) (some item) := by
  have hc := containsAL_false_of_lookup_none h
  simp [Reference.insert, h, hc]

theorem Reference.insert_lookup_some (E : Type) {T : Type} (idOf : T → Int)
    (s : Reference T) (item : T) (vid : Nat)
    (h : lookupAL (idOf item) s.vids = some vid) (hlt : vid < s.items.len) :
    Reference.insert E idOf s item =
      ({ s with
          items := s.items.write vid (some item)
          effectiveLen := s.effectiveLen + 1 },
       Except.ok vid) := by
  simp [Reference.insert, h, RArray.getMut, hlt]

theorem Reference.get_some {T : Type} (s : Reference T) (id : Int) (vid : Nat)
    (h : lookupAL id s.vids = some vid) (hlt : vid < s.items.len) :
    Reference.get s id = some vid := by
  simp [Reference.get, h, RArray.getMut, hlt]

theorem Reference.get_of_lookup_none {T : Type} (s : Reference T) (id : Int)
    (h : lookupAL id s.vids = none) : Reference.get s id = none := by
  simp [Reference.get, h]

/-! The store invariant: every position recorded in the `vids` map is below
the backing array's length (so the recorded position is resolvable). It holds
for `Reference::new` and is preserved by every store operation. -/

theorem lookup_lt_of_inv {T : Type} {s : Reference T} {k : Int} {v : Nat}
    (hInv : StoreInv s) (h : lookupAL k s.vids = some v) : v < s.items.len :=
  hInv (k, v) (lookupAL_mem h)

theorem inv_new {T : Type} {c : Nat} {s : Reference T}
    (h : Reference.new T c = some s) : StoreInv s := by
  cases c with
  | zero => simp [Reference.new, RArray.push, RArray.new, RArray.len] at h
  | succ c =>
    simp [Reference.new, RArray.push, RArray.new, RArray.len] at h
    subst h
    intro p hp
    simp [insertAL] at hp
    subst hp
    simp [RArray.len]

theorem inv_add {E T : Type} {s s' : Reference T} {id : Int} {mi : Option T}
    {r : Except (RefError E) Nat}
    (hInv : StoreInv s) (hadd : Reference.add E s id mi = (s', r)) : StoreInv s' := by
  by_cases h : s.items.len < s.items.capacity
  · rw [Reference.add_ok E s id mi h] at hadd
    obtain ⟨rfl, -⟩ := Prod.mk.injEq .. ▸ hadd
    intro p hp
    have hlen : ({ data := s.items.data ++ [mi], capacity := s.items.capacity } :
        RArray (Option T)).len = s.items.len + 1 := by
      simp [RArray.len]
    rw [hlen]
    rcases List.mem_cons.mp hp with hph | hpt
    · subst hph; exact Nat.lt_succ_self _
    · exact Nat.lt_succ_of_lt (hInv p (List.mem_of_mem_filter hpt))
  · rw [Reference.add_full E s id mi (Nat.le_of_not_lt h)] at hadd
    obtain ⟨rfl, -⟩ := Prod.mk.injEq .. ▸ hadd
    exact hInv

theorem inv_insert {E T : Type} {idOf : T → Int} {s s' : Reference T} {item : T}
    {r : Except (RefError E) Nat}
    (hInv : StoreInv s) (hins : Reference.insert E idOf s item = (s', r)) : StoreInv s' := by
  rcases hl : lookupAL (idOf item) s.vids with _ | vid
  · rw [Reference.insert_lookup_none E idOf s item hl] at hins
    exact inv_add hInv hins
  · have hlt : vid < s.items.len := lookup_lt_of_inv hInv hl
    rw [Reference.insert_lookup_some E idOf s item vid hl hlt] at hins
    obtain ⟨rfl, -⟩ := Prod.mk.injEq .. ▸ hins
    intro p hp
    have : (s.items.write vid (some item)).len = s.items.len := by
      simp [RArray.len, RArray.write]
    rw [this]
    exact hInv p hp

theorem inv_getOrReserve {E T : Type} {s s' : Reference T} {id : Int}
    {r : Except (RefError E) Nat}
    (hInv : StoreInv s) (hres : Reference.getOrReserve E s id = (s', r)) : StoreInv s' := by
  unfold Reference.getOrReserve at hres
  rcases hg : Reference.get s id with _ | vid
  · rw [hg] at hres
    exact inv_add hInv hres
  · rw [hg] at hres
    obtain ⟨rfl, -⟩ := Prod.mk.injEq .. ▸ hres
    exact hInv

theorem inv_replaceEntry {T : Type} {s : Reference T} (pos : Nat) (item : T)
    (hInv : StoreInv s) : StoreInv (replaceEntry s pos item) := by
  intro p hp
  have : (s.items.write pos (some item)).len = s.items.len := by
    simp [RArray.len, RArray.write]
  simp only [replaceEntry] at hp ⊢
  rw [this]
  exact hInv p hp

theorem inv_updateEntry {T E : Type} {s : Reference T} (pos : Nat)
    (f : Option T → Option T × Except E Unit)
    (hInv : StoreInv s) : StoreInv (updateEntry s pos f).1 := by
  intro p hp
  have : (s.items.write pos (f (loadEntry s pos)).1).len = s.items.len := by
    simp [RArray.len, RArray.write]
  simp only [updateEntry] at hp ⊢
  rw [this]
  exact hInv p hp

theorem reach_inv {T : Type} {idOf : T → Int} {s : Reference T}
    (h : Reach idOf s) : StoreInv s := by
  induction h with
  | new c s hn => exact inv_new hn
  | insert s s' item r _ hstep ih => exact inv_insert ih hstep
  | reserve s s' id r _ hstep ih => exact inv_getOrReserve ih hstep
  | replace s pos item _ ih => exact inv_replaceEntry pos item ih
  | update s pos f _ ih => exact inv_updateEntry pos f ih

/-! Further characterization lemmas and the iterator lemma. -/

theorem Reference.insert_lookup_some_oob (E : Type) {T : Type} (idOf : T → Int)
    (s : Reference T) (item : T) (vid : Nat)
    (h : lookupAL (idOf item) s.vids = some vid) (hge : ¬ vid < s.items.len) :
    Reference.insert E idOf s item =
      (s, Except.error (RefError.insertError (InsertMsg.indexOutOfBounds vid))) := by
  simp [Reference.insert, h, RArray.getMut, hge]

theorem get_none_lookup_none {T : Type} {s : Reference T} {id : Int}
    (hInv : StoreInv s) (h : Reference.get s id = none) :
    lookupAL id s.vids = none := by
  rcases hl : lookupAL id s.vids with _ | vid
  · rfl
  · rw [Reference.get_some s id vid hl (lookup_lt_of_inv hInv hl)] at h
    cases h

theorem loadEntry_congr {T : Type} {s s' : Reference T} {q : Nat}
    (h : s'.items.read q = s.items.read q) : loadEntry s' q = loadEntry s q := by
  simp [loadEntry, h]

theorem runIterFrom_eq {T : Type} (s : Reference T) (len idx : Nat)
    (h : len ≤ s.items.len) :
    runIterFrom s len idx = (s.items.data.drop idx).take (len - idx) := by
  rw [runIterFrom]
  by_cases hidx : idx < len
  · rw [if_pos hidx, runIterFrom_eq s len (idx + 1) h]
    have hlt : idx < s.items.data.length := Nat.lt_of_lt_of_le hidx h
    rw [List.drop_eq_getElem_cons hlt]
    have hsub : len - idx = (len - (idx + 1)) + 1 := by omega
    rw [hsub, List.take_succ_cons]
    have hload : loadEntry s idx = s.items.data.get ⟨idx, hlt⟩ := by
      simp [loadEntry, RArray.read, listRead_getElem s.items.data idx hlt]
    rw [hload, List.get_eq_getElem]
  · rw [if_neg hidx]
    rw [Nat.sub_eq_zero_of_le (Nat.le_of_not_lt hidx), List.take_zero]
termination_by len - idx

/-- C2: for every item whose identifier is `k`, if `insert(item)` succeeds
(returning an entry at position `p`), then `get(k)` on the resulting store
returns an entry at that same position and its loaded content equals
`Some(item)`. -/
theorem C2_insert_then_get {E T : Type} (idOf : T → Int) (s s' : Reference T)
    (item : T) (p : Nat)
    (h : Reference.insert E idOf s item = (s', Except.ok p)) :
    Reference.get s' (idOf item) = some p ∧ loadEntry s' p = some item := by
  rcases hl : lookupAL (idOf item) s.vids with _ | vid
  · rw [Reference.insert_lookup_none E idOf s item hl] at h
    by_cases hcap : s.items.len < s.items.capacity
    · rw [Reference.add_ok E s (idOf item) (some item) hcap] at h
      obtain ⟨h1, h2⟩ := Prod.mk.injEq .. ▸ h
      obtain rfl := h1.symm
      obtain rfl : s.items.len = p := by
        cases h2 with | refl => rfl
      constructor
      · apply Reference.get_some
        · exact lookupAL_insertAL_self (idOf item) s.items.len s.vids
        · simp [RArray.len]
      · apply loadEntry_of_read_some
        show listRead (s.items.data ++ [some item]) s.items.data.length = some (some item)
        exact listRead_append_self s.items.data (some item)
    · rw [Reference.add_full E s (idOf item) (some item) (Nat.le_of_not_lt hcap)] at h
      obtain ⟨-, h2⟩ := Prod.mk.injEq .. ▸ h
      cases h2
  · by_cases hlt : vid < s.items.len
    · rw [Reference.insert_lookup_some E idOf s item vid hl hlt] at h
      obtain ⟨h1, h2⟩ := Prod.mk.injEq .. ▸ h
      obtain rfl := h1.symm
      obtain rfl : vid = p := by
        cases h2 with | refl => rfl
      constructor
      · apply Reference.get_some
        · exact hl
        · simpa [RArray.len, RArray.write] using hlt
      · exact loadEntry_of_read_some (RArray.read_write_self s.items vid (some item) hlt)
    · rw [Reference.insert_lookup_some_oob E idOf s item vid hl hlt] at h
      obtain ⟨-, h2⟩ := Prod.mk.injEq .. ▸ h
      cases h2

/-- C2 witness: inserting `{id 1, name 5}` into a fresh capacity-3 store
succeeds at position 1, and `get 1` then loads that item. -/
theorem C2_witness :
    Reference.get sIns1 1 = some 1 ∧ loadEntry sIns1 1 = some ⟨1, 5⟩ :=
  @C2_insert_then_get Unit Foo idFoo (mkRef 3) sIns1 ⟨1, 5⟩ 1 rfl

/-- C10: the guard of `Reference::insert` — a `vids` lookup of the id yields
nothing yet the map contains the id as a key — is unsatisfiable, so `insert`
never returns the `InsertError` stating that the id already exists. -/
theorem C10_no_already_exists {E T : Type} (idOf : T → Int) (s : Reference T)
    (item : T) (id : Int) :
    (¬ (lookupAL (idOf item) s.vids = none ∧
        containsAL (idOf item) s.vids = true)) ∧
    (Reference.insert E idOf s item).2 ≠
      Except.error (RefError.insertError (InsertMsg.alreadyExists id)) := by
  constructor
  · rintro ⟨h1, h2⟩
    rw [containsAL_false_of_lookup_none h1] at h2
    cases h2
  · rcases hl : lookupAL (idOf item) s.vids with _ | vid
    · rw [Reference.insert_lookup_none E idOf s item hl]
      by_cases hcap : s.items.len < s.items.capacity
      · rw [Reference.add_ok E s (idOf item) (some item) hcap]
        simp
      · rw [Reference.add_full E s (idOf item) (some item) (Nat.le_of_not_lt hcap)]
        simp
    · by_cases hlt : vid < s.items.len
      · rw [Reference.insert_lookup_some E idOf s item vid hl hlt]
        simp
      · rw [Reference.insert_lookup_some_oob E idOf s item vid hl hlt]
        simp

theorem lookup_add_pres {E T : Type} {s : Reference T} {id k : Int} {p : Nat}
    {mi : Option T}
    (hid : lookupAL id s.vids = none) (hk : lookupAL k s.vids = some p) :
    lookupAL k ((Reference.add E s id mi).1).vids = some p := by
  have hne : k ≠ id := by
    intro hh
    rw [hh, hid] at hk
    cases hk
  by_cases hcap : s.items.len < s.items.capacity
  · rw [Reference.add_ok E s id mi hcap]
    exact (lookupAL_insertAL_ne id k s.items.len s.vids hne).trans hk
  · rw [Reference.add_full E s id mi (Nat.le_of_not_lt hcap)]
    exact hk

/-- C9: the identifier→position mapping is stable: if `k` is mapped to
position `p` in the index, then after any `insert` or `get_or_reserve` (with
any arguments) `k` is still mapped to `p`; `get` does not change the state at
all (it returns no new state in this embedding). `StoreInv` holds in every
reachable store (`reach_inv`). -/
theorem C9_position_stable {E T : Type} (idOf : T → Int) (s : Reference T)
    (k : Int) (p : Nat) (item : T) (id : Int)
    (hInv : StoreInv s) (h : lookupAL k s.vids = some p) :
    lookupAL k ((Reference.insert E idOf s item).1).vids = some p ∧
    lookupAL k ((Reference.getOrReserve E s id).1).vids = some p := by
  constructor
  · rcases hl : lookupAL (idOf item) s.vids with _ | vid
    · rw [Reference.insert_lookup_none E idOf s item hl]
      exact lookup_add_pres hl h
    · rw [Reference.insert_lookup_some E idOf s item vid hl (lookup_lt_of_inv hInv hl)]
      exact h
  · rcases hg : Reference.get s id with _ | vid
    · have hid := get_none_lookup_none hInv hg
      simp only [Reference.getOrReserve, hg]
      exact lookup_add_pres hid h
    · simp only [Reference.getOrReserve, hg]
      exact h

/-- C9 witness: in the store holding `{id 1, name 5}`, identifier 1 stays
mapped to position 1 across an insert of a fresh item and a reservation. -/
theorem C9_witness :
    StoreInv sIns1 ∧
    lookupAL 1 ((Reference.insert Unit idFoo sIns1 ⟨2, 8⟩).1).vids = some 1 ∧
    lookupAL 1 ((Reference.getOrReserve Unit sIns1 9).1).vids = some 1 :=
  ⟨by decide,
   (@C9_position_stable Unit Foo idFoo sIns1 1 1 ⟨2, 8⟩ 9 (by decide) rfl).1,
   (@C9_position_stable Unit Foo idFoo sIns1 1 1 ⟨2, 8⟩ 9 (by decide) rfl).2⟩

/-- C8: an iterator created when the backing array had length `L`
(`iterStart` captures `L` and cursor 0) and run against any later state whose
array holds at least `L` slots yields exactly the slots at positions
`0, 1, ..., L-1` in that order — one element per position, in slot-assignment
order, including the sentinel at position 0 and still-empty reserved slots —
and yields none of the elements appended after the iterator's creation. -/
theorem C8_iter_order {T : Type} (s0 s2 : Reference T)
    (h : (Reference.iterStart s0).1 ≤ s2.items.len) :
    runIterFrom s2 (Reference.iterStart s0).1 (Reference.iterStart s0).2 =
      s2.items.data.take (Reference.iterStart s0).1 ∧
    (runIterFrom s2 (Reference.iterStart s0).1 (Reference.iterStart s0).2).length =
      (Reference.iterStart s0).1 := by
  have h0 := runIterFrom_eq s2 (Reference.iterStart s0).1 0 h
  have h1 : runIterFrom s2 (Reference.iterStart s0).1 (Reference.iterStart s0).2 =
      s2.items.data.take (Reference.iterStart s0).1 := by
    show runIterFrom s2 (Reference.iterStart s0).1 0 = _
    rw [h0]
    simp
  refine ⟨h1, ?_⟩
  rw [h1, List.length_take]
  exact Nat.min_eq_left h

/-- C8 witness: the iterator created on `sGrow1` (array length 2) and run
after the store has grown to `sGrow2` (array length 4) yields exactly the
first two slots, not the two appended later. -/
theorem C8_witness :
    (Reference.iterStart sGrow1).1 ≤ sGrow2.items.len ∧
    (runIterFrom sGrow2 (Reference.iterStart sGrow1).1 (Reference.iterStart sGrow1).2 =
       sGrow2.items.data.take (Reference.iterStart sGrow1).1 ∧
     (runIterFrom sGrow2 (Reference.iterStart sGrow1).1
        (Reference.iterStart sGrow1).2).length = (Reference.iterStart sGrow1).1) :=
  ⟨by decide, C8_iter_order sGrow1 sGrow2 (by decide)⟩

/-- C3 counterexample: an `Entry` is a direct alias of its slot, not an
independently owned snapshot. Reserve identifier 1 (the entry at position 1
observes `none`), then replace through it: the very same entry now observes
the new item, so the value observed through the earlier-obtained entry did
change — contradicting the claim that it stays what it was at load time. -/
theorem C3_counterexample :
    Reference.getOrReserve Unit (mkRef 2) 1 = (sRes1, Except.ok 1) ∧
    loadEntry sRes1 1 = none ∧
    loadEntry (replaceEntry sRes1 1 ⟨1, 5⟩) 1 = some ⟨1, 5⟩ ∧
    loadEntry (replaceEntry sRes1 1 ⟨1, 5⟩) 1 ≠ loadEntry sRes1 1 :=
  ⟨rfl, rfl, rfl, by decide⟩

/-- C3 amended: dereferencing an entry goes through the slot itself, so after
`Entry::replace` every entry at that position — including ones obtained
earlier — observes the newly installed item (there is no independently owned
snapshot; `Entry` has no `load` producing one, only a `Deref` into the slot). -/
theorem C3_amended {T : Type} (s : Reference T) (pos : Nat) (item : T)
    (h : pos < s.items.len) :
    loadEntry (replaceEntry s pos item) pos = some item :=
  loadEntry_of_read_some (RArray.read_write_self s.items pos (some item) h)

/-- C3 witness: replacing through the reserved entry at position 1 makes that
position observe the new item. -/
theorem C3_amended_witness :
    1 < sRes1.items.len ∧ loadEntry (replaceEntry sRes1 1 ⟨1, 7⟩) 1 = some ⟨1, 7⟩ :=
  ⟨by decide, C3_amended sRes1 1 ⟨1, 7⟩ (by decide)⟩

/-- C4 counterexample: `Entry::update` hands the closure the slot itself
(`&mut Option<T>`); a closure that overwrites the slot and then fails leaves
its mutation in place. The error does carry the closure's cause, but the
slot's content after the call (`{id 1, name 99}`) differs from its content
before (`{id 1, name 5}`) — contradicting the claim that the slot is
unchanged for every failing closure, including mutating ones. -/
theorem C4_counterexample :
    (updateEntry sIns1 1 fBad).2 = Except.error (RefError.updateError 7) ∧
    loadEntry sIns1 1 = some ⟨1, 5⟩ ∧
    loadEntry (updateEntry sIns1 1 fBad).1 1 = some ⟨1, 99⟩ ∧
    loadEntry (updateEntry sIns1 1 fBad).1 1 ≠ loadEntry sIns1 1 :=
  ⟨rfl, rfl, rfl, by decide⟩

/-- C4 amended: if the update closure fails, the returned error wraps the
closure's original cause; the slot afterwards holds exactly what the closure
left in it (so a closure that does not modify its argument leaves the slot
unchanged), and no other slot is affected. -/
theorem C4_amended {T E : Type} (s : Reference T) (pos : Nat)
    (f : Option T → Option T × Except E Unit) (v : Option T) (e : E)
    (hpos : pos < s.items.len) (hf : f (loadEntry s pos) = (v, Except.error e)) :
    (updateEntry s pos f).2 = Except.error (RefError.updateError e) ∧
    loadEntry (updateEntry s pos f).1 pos = v ∧
    ∀ q, q ≠ pos → loadEntry (updateEntry s pos f).1 q = loadEntry s q := by
  refine ⟨?_, ?_, ?_⟩
  · simp [updateEntry, hf]
  · show loadEntry { s with items := s.items.write pos (f (loadEntry s pos)).1 } pos = v
    rw [hf]
    exact loadEntry_of_read_some (RArray.read_write_self s.items pos v hpos)
  · intro q hq
    exact loadEntry_congr (RArray.read_write_ne s.items q pos _ hq)

/-- C4 witness: a failing closure that leaves the slot untouched produces
`UpdateError` with its cause `3` attached and the slot still holds
`{id 1, name 5}`. -/
theorem C4_witness :
    1 < sIns1.items.len ∧
    fKeep (loadEntry sIns1 1) = (some ⟨1, 5⟩, Except.error 3) ∧
    (updateEntry sIns1 1 fKeep).2 = Except.error (RefError.updateError 3) ∧
    loadEntry (updateEntry sIns1 1 fKeep).1 1 = some ⟨1, 5⟩ :=
  ⟨by decide, rfl,
   (C4_amended sIns1 1 fKeep (some ⟨1, 5⟩) 3 (by decide) rfl).1,
   (C4_amended sIns1 1 fKeep (some ⟨1, 5⟩) 3 (by decide) rfl).2.1⟩

/-- C6: when identifier `k = idOf item` is already registered at position `p`
(the position every previously obtained entry for `k` wraps, since `get`
returns exactly that position), `insert(item)` succeeds without error,
overwrites that very slot with the new item, and the entry at `p` — hence
every previously obtained entry for `k` — observes the new content on its
next load. `StoreInv` holds in every reachable store (`reach_inv`). -/
theorem C6_reinsert_replaces {E T : Type} (idOf : T → Int) (s : Reference T)
    (item : T) (p : Nat)
    (hInv : StoreInv s) (h : lookupAL (idOf item) s.vids = some p) :
    Reference.get s (idOf item) = some p ∧
    Reference.insert E idOf s item =
      ({ s with
          items := s.items.write p (some item)
          effectiveLen := s.effectiveLen + 1 },
       Except.ok p) ∧
    loadEntry (Reference.insert E idOf s item).1 p = some item := by
  have hlt := lookup_lt_of_inv hInv h
  refine ⟨Reference.get_some s (idOf item) p h hlt,
    Reference.insert_lookup_some E idOf s item p h hlt, ?_⟩
  rw [Reference.insert_lookup_some E idOf s item p h hlt]
  exact loadEntry_of_read_some (RArray.read_write_self s.items p (some item) hlt)

/-- C6 witness: re-inserting `{id 1, name 9}` over the store already holding
`{id 1, name 5}` succeeds and position 1 then loads the new item. -/
theorem C6_witness :
    StoreInv sIns1 ∧ lookupAL 1 sIns1.vids = some 1 ∧
    Reference.get sIns1 1 = some 1 ∧
    (Reference.insert Unit idFoo sIns1 ⟨1, 9⟩).2 = Except.ok 1 ∧
    loadEntry (Reference.insert Unit idFoo sIns1 ⟨1, 9⟩).1 1 = some ⟨1, 9⟩ := by
  have h := @C6_reinsert_replaces Unit Foo idFoo sIns1 ⟨1, 9⟩ 1 (by decide) rfl
  exact ⟨by decide, rfl, h.1, congrArg Prod.snd h.2.1, h.2.2⟩

theorem reserve_fresh (E : Type) {T : Type} (s : Reference T) (k : Int)
    (hk : lookupAL k s.vids = none) (hcap : s.items.len < s.items.capacity) :
    Reference.getOrReserve E s k =
      ({ items := { data := s.items.data ++ [none], capacity := s.items.capacity }
         vids := insertAL k s.items.len s.vids
         effectiveLen := s.effectiveLen + 1 },
       Except.ok s.items.len) := by
  simp only [Reference.getOrReserve, Reference.get_of_lookup_none s k hk]
  exact Reference.add_ok E s k none hcap

/-- C7 amended (the counterexample forces assuming a free slot — on a full
store the first reservation fails with `CapacityExceeded`): for a store with
a free slot and an identifier `k` never inserted or reserved, the first
`get_or_reserve(k)` succeeds, returning the entry at the fresh position
`len`; the second call succeeds, returns the same state (nothing new is
reserved) and an entry at the same position; the reserved slot loads nothing;
and a later `insert` of an item with identifier `k` succeeds at that same
position, whose entry — shared by both earlier calls — then loads the item. -/
theorem C7_amended {E T : Type} (idOf : T → Int) (s : Reference T) (k : Int)
    (hk : lookupAL k s.vids = none)
    (hcap : s.items.len < s.items.capacity) :
    (Reference.getOrReserve E s k).2 = Except.ok s.items.len ∧
    Reference.getOrReserve E (Reference.getOrReserve E s k).1 k =
      ((Reference.getOrReserve E s k).1, Except.ok s.items.len) ∧
    loadEntry (Reference.getOrReserve E s k).1 s.items.len = none ∧
    (∀ item, idOf item = k →
      (Reference.insert E idOf (Reference.getOrReserve E s k).1 item).2 =
        Except.ok s.items.len ∧
      loadEntry (Reference.insert E idOf (Reference.getOrReserve E s k).1 item).1
        s.items.len = some item) := by
  rw [reserve_fresh E s k hk hcap]
  have hl1 : lookupAL k (insertAL k s.items.len s.vids) = some s.items.len :=
    lookupAL_insertAL_self k s.items.len s.vids
  have hlt1 : s.items.len <
      ({ data := s.items.data ++ [none], capacity := s.items.capacity } :
        RArray (Option T)).len := by
    simp [RArray.len]
  refine ⟨rfl, ?_, ?_, ?_⟩
  · simp only [Reference.getOrReserve]
    rw [Reference.get_some _ k s.items.len hl1 hlt1]
  · exact loadEntry_of_read_some (listRead_append_self s.items.data none)
  · intro item hitem
    have hl2 : lookupAL (idOf item) (insertAL k s.items.len s.vids) =
        some s.items.len := by
      rw [hitem]
      exact hl1
    rw [Reference.insert_lookup_some E idOf _ item s.items.len hl2 hlt1]
    constructor
    · rfl
    · exact loadEntry_of_read_some
        (RArray.read_write_self _ s.items.len (some item) hlt1)

/-- C7 counterexample: the claim quantifies over every store, but on a full
store (capacity 1, fully occupied by the sentinel) the first
`get_or_reserve` of the unseen identifier 5 does not succeed — it fails with
the wrapped `CapacityExceeded` error. -/
theorem C7_counterexample :
    lookupAL 5 (mkRef 1).vids = none ∧
    Reference.getOrReserve Unit (mkRef 1) 5 =
      (mkRef 1, Except.error (RefError.other (ArrayError.capacityExceeded 1))) :=
  ⟨rfl, rfl⟩

/-- C7 witness: reserving the unseen identifier 2 twice in the store holding
`{id 1, name 5}` (length 2, capacity 3) yields position 2 both times with no
second reservation, and a later insert of `{id 2, name 6}` lands at that
shared position. -/
theorem C7_witness :
    lookupAL 2 sIns1.vids = none ∧
    sIns1.items.len < sIns1.items.capacity ∧
    (Reference.getOrReserve Unit sIns1 2).2 = Except.ok sIns1.items.len ∧
    Reference.getOrReserve Unit (Reference.getOrReserve Unit sIns1 2).1 2 =
      ((Reference.getOrReserve Unit sIns1 2).1, Except.ok sIns1.items.len) ∧
    loadEntry (Reference.getOrReserve Unit sIns1 2).1 sIns1.items.len = none ∧
    (Reference.insert Unit idFoo (Reference.getOrReserve Unit sIns1 2).1 ⟨2, 6⟩).2 =
      Except.ok sIns1.items.len ∧
    loadEntry (Reference.insert Unit idFoo
      (Reference.getOrReserve Unit sIns1 2).1 ⟨2, 6⟩).1 sIns1.items.len =
      some ⟨2, 6⟩ := by
  have h := @C7_amended Unit Foo idFoo sIns1 2 rfl (by decide)
  exact ⟨rfl, by decide, h.1, h.2.1, h.2.2.1,
    (h.2.2.2 ⟨2, 6⟩ rfl).1, (h.2.2.2 ⟨2, 6⟩ rfl).2⟩


theorem loadEntry_listRead {T : Type} (s : Reference T) (q : Nat) :
    loadEntry s q = (listRead s.items.data q).getD none := by
  rcases h : listRead s.items.data q with _ | slot
  · simp [loadEntry, RArray.read, h]
  · simp [loadEntry, RArray.read, h]

theorem sinv_new {T : Type} {c : Nat} {s : Reference T}
    (h : Reference.new T c = some s) : SentinelInv s := by
  cases c with
  | zero => simp [Reference.new, RArray.push, RArray.new, RArray.len] at h
  | succ c =>
    simp [Reference.new, RArray.push, RArray.new, RArray.len] at h
    subst h
    refine ⟨rfl, ?_, rfl, ?_, ?_⟩
    · show 0 < ([(none : Option T)]).length
      simp
    · intro p hp
      simp [insertAL] at hp
      subst hp
      show 0 < ([(none : Option T)]).length
      simp
    · intro p hp
      simp [insertAL] at hp
      subst hp
      intro _
      rfl

theorem sinv_add {E T : Type} {s s' : Reference T} {id : Int} {mi : Option T}
    {r : Except (RefError E) Nat}
    (hS : SentinelInv s) (hid : id ≠ 0) (hadd : Reference.add E s id mi = (s', r)) :
    SentinelInv s' := by
  obtain ⟨h0, hlen, hload, hInv, hz⟩ := hS
  have hInv' : StoreInv s' := inv_add hInv hadd
  by_cases hcap : s.items.len < s.items.capacity
  · rw [Reference.add_ok E s id mi hcap] at hadd
    obtain ⟨rfl, -⟩ := Prod.mk.injEq .. ▸ hadd
    refine ⟨?_, ?_, ?_, hInv', ?_⟩
    · rw [lookupAL_insertAL_ne id 0 s.items.len s.vids (fun hh => hid hh.symm)]
      exact h0
    · show 0 < (s.items.data ++ [mi]).length
      simp
    · rw [loadEntry_listRead]
      show (listRead (s.items.data ++ [mi]) 0).getD none = none
      rw [listRead_append_left s.items.data [mi] 0 hlen]
      rw [loadEntry_listRead] at hload
      exact hload
    · intro p hp
      rcases List.mem_cons.mp hp with hph | hpt
      · subst hph
        intro hl0
        exact absurd (hl0 ▸ hlen) (Nat.lt_irrefl 0)
      · exact hz p (List.mem_of_mem_filter hpt)
  · rw [Reference.add_full E s id mi (Nat.le_of_not_lt hcap)] at hadd
    obtain ⟨rfl, -⟩ := Prod.mk.injEq .. ▸ hadd
    exact ⟨h0, hlen, hload, hInv, hz⟩

theorem sinv_insert {E T : Type} {idOf : T → Int} {s s' : Reference T} {item : T}
    {r : Except (RefError E) Nat}
    (hS : SentinelInv s) (hid : idOf item ≠ 0)
    (hins : Reference.insert E idOf s item = (s', r)) : SentinelInv s' := by
  obtain ⟨h0, hlen, hload, hInv, hz⟩ := hS
  rcases hl : lookupAL (idOf item) s.vids with _ | vid
  · rw [Reference.insert_lookup_none E idOf s item hl] at hins
    exact sinv_add ⟨h0, hlen, hload, hInv, hz⟩ hid hins
  · have hlt := lookup_lt_of_inv hInv hl
    have hvid0 : vid ≠ 0 := by
      intro hv
      exact hid (hz (idOf item, vid) (lookupAL_mem hl) hv)
    rw [Reference.insert_lookup_some E idOf s item vid hl hlt] at hins
    obtain ⟨rfl, -⟩ := Prod.mk.injEq .. ▸ hins
    refine ⟨h0, ?_, ?_, ?_, hz⟩
    · show 0 < (s.items.data.set vid (some item)).length
      simpa using hlen
    · rw [loadEntry_listRead]
      show (listRead (s.items.data.set vid (some item)) 0).getD none = none
      rw [listRead_set_ne s.items.data 0 vid (some item) (fun hh => hvid0 hh.symm)]
      rw [loadEntry_listRead] at hload
      exact hload
    · intro p hp
      show p.2 < (s.items.data.set vid (some item)).length
      simpa using hInv p hp
  
theorem sinv_reserve {E T : Type} {s s' : Reference T} {id : Int}
    {r : Except (RefError E) Nat}
    (hS : SentinelInv s) (hid : id ≠ 0)
    (hres : Reference.getOrReserve E s id = (s', r)) : SentinelInv s' := by
  rcases hg : Reference.get s id with _ | vid
  · simp only [Reference.getOrReserve, hg] at hres
    exact sinv_add hS hid hres
  · simp only [Reference.getOrReserve, hg] at hres
    obtain ⟨rfl, -⟩ := Prod.mk.injEq .. ▸ hres
    exact hS

theorem sinv_replace {T : Type} {s : Reference T} {pos : Nat} {item : T}
    (hS : SentinelInv s) (hpos : pos ≠ 0) : SentinelInv (replaceEntry s pos item) := by
  obtain ⟨h0, hlen, hload, hInv, hz⟩ := hS
  refine ⟨h0, ?_, ?_, inv_replaceEntry pos item hInv, hz⟩
  · show 0 < (s.items.data.set pos (some item)).length
    simpa using hlen
  · rw [loadEntry_listRead]
    show (listRead (s.items.data.set pos (some item)) 0).getD none = none
    rw [listRead_set_ne s.items.data 0 pos (some item) (fun hh => hpos hh.symm)]
    rw [loadEntry_listRead] at hload
    exact hload

theorem sinv_update {T E : Type} {s : Reference T} {pos : Nat}
    {f : Option T → Option T × Except E Unit}
    (hS : SentinelInv s) (hpos : pos ≠ 0) : SentinelInv (updateEntry s pos f).1 := by
  obtain ⟨h0, hlen, hload, hInv, hz⟩ := hS
  refine ⟨h0, ?_, ?_, inv_updateEntry pos f hInv, hz⟩
  · show 0 < (s.items.data.set pos (f (loadEntry s pos)).1).length
    simpa using hlen
  · rw [loadEntry_listRead]
    show (listRead (s.items.data.set pos (f (loadEntry s pos)).1) 0).getD none = none
    rw [listRead_set_ne s.items.data 0 pos _ (fun hh => hpos hh.symm)]
    rw [loadEntry_listRead] at hload
    exact hload

theorem reachNZ_sentinel {T : Type} {idOf : T → Int} {s : Reference T}
    (h : ReachNZ idOf s) : SentinelInv s := by
  induction h with
  | new c s hn => exact sinv_new hn
  | insert s s' item r _ hid hstep ih => exact sinv_insert ih hid hstep
  | reserve s s' id r _ hid hstep ih => exact sinv_reserve ih hid hstep
  | replace s pos item _ hpos ih => exact sinv_replace ih hpos
  | update s pos f _ hpos ih => exact sinv_update ih hpos

/-- C5 amended (the counterexample forces excluding writes through identifier
0's slot, which the code permits): in every state reachable by inserts of
items with nonzero identifiers, gets, reserves of nonzero identifiers, and
replaces/updates through entries at nonzero positions, the slot at position 0
(mapped from identifier 0) holds empty content — `get 0` returns the entry at
position 0, which loads nothing; moreover every identifier mapped to position
0 is identifier 0, so every entry obtained for a nonzero identifier indeed
sits at a nonzero position. -/
theorem C5_sentinel {T : Type} (idOf : T → Int) (s : Reference T)
    (h : ReachNZ idOf s) :
    Reference.get s 0 = some 0 ∧ loadEntry s 0 = none ∧
    (∀ k p, lookupAL k s.vids = some p → p = 0 → k = 0) := by
  obtain ⟨h0, hlen, hload, -, hz⟩ := reachNZ_sentinel h
  exact ⟨Reference.get_some s 0 0 h0 hlen, hload,
    fun k p hkp hp => hz (k, p) (lookupAL_mem hkp) hp⟩

/-- C5 counterexample: the claim includes inserts of identifier 0, but the
code maps identifier 0 to position 0 at construction, so `insert` of an item
with identifier 0 takes the replace branch and overwrites the sentinel slot:
afterwards `get 0` returns an entry that loads `Some {id 0, name 7}`, not
nothing. -/
theorem C5_counterexample :
    (Reference.insert Unit idFoo (mkRef 2) ⟨0, 7⟩).2 = Except.ok 0 ∧
    Reference.get ((Reference.insert Unit idFoo (mkRef 2) ⟨0, 7⟩).1) 0 = some 0 ∧
    loadEntry ((Reference.insert Unit idFoo (mkRef 2) ⟨0, 7⟩).1) 0 = some ⟨0, 7⟩ ∧
    loadEntry ((Reference.insert Unit idFoo (mkRef 2) ⟨0, 7⟩).1) 0 ≠ none :=
  ⟨rfl, rfl, rfl, by decide⟩

/-- C5 witness: the store reached by inserting `{id 1, name 5}` (a nonzero
identifier) into a fresh capacity-3 store keeps its sentinel empty. -/
theorem C5_witness :
    ReachNZ idFoo sIns1 ∧
    (Reference.get sIns1 0 = some 0 ∧ loadEntry sIns1 0 = none) := by
  have r0 : ReachNZ idFoo (mkRef 3) := ReachNZ.new 3 (mkRef 3) rfl
  have r1 : ReachNZ idFoo sIns1 :=
    ReachNZ.insert (mkRef 3) sIns1 ⟨1, 5⟩ (Except.ok 1) r0 (by decide) rfl
  exact ⟨r1, (C5_sentinel idFoo sIns1 r1).1, (C5_sentinel idFoo sIns1 r1).2.1⟩

theorem insertAll_fresh {T : Type} (idOf : T → Int) :
    ∀ (items : List T) (s : Reference T),
      StoreInv s →
      (∀ it ∈ items, lookupAL (idOf it) s.vids = none) →
      items.Pairwise (fun a b => idOf a ≠ idOf b) →
      s.items.len + items.length ≤ s.items.capacity →
      ∃ s2, insertAll idOf s items = Except.ok s2 ∧
        StoreInv s2 ∧
        s2.items.len = s.items.len + items.length ∧
        s2.items.capacity = s.items.capacity ∧
        (∀ k v, lookupAL k s.vids = some v → lookupAL k s2.vids = some v) ∧
        (∀ k, lookupAL k s.vids = none → (∀ it ∈ items, idOf it ≠ k) →
          lookupAL k s2.vids = none) ∧
        (∀ q, q < s.items.len → loadEntry s2 q = loadEntry s q) ∧
        (∀ it ∈ items, ∃ p, Reference.get s2 (idOf it) = some p ∧
          loadEntry s2 p = some it) := by
  intro items
  induction items with
  | nil =>
    intro s hInv hfresh hpw hcap
    refine ⟨s, rfl, hInv, by simp, rfl, fun k v h => h, fun k h _ => h,
      fun q _ => rfl, ?_⟩
    intro it hit
    exact absurd hit (List.not_mem_nil it)
  | cons item rest ih =>
    intro s hInv hfresh hpw hcap
    have hitem : lookupAL (idOf item) s.vids = none :=
      hfresh item (List.mem_cons_self item rest)
    have hcap' := hcap
    rw [List.length_cons] at hcap'
    have hcap0 : s.items.len < s.items.capacity := by omega
    have hstep : Reference.insert Unit idOf s item =
        Reference.add Unit s (idOf item) (some item) :=
      Reference.insert_lookup_none Unit idOf s item hitem
    have haddeq := Reference.add_ok Unit s (idOf item) (some item) hcap0
    set s1 := ({ items := { data := s.items.data ++ [some item]
                            capacity := s.items.capacity }
                 vids := insertAL (idOf item) s.items.len s.vids
                 effectiveLen := s.effectiveLen + 1 } : Reference T) with hs1
    have hrun : insertAll idOf s (item :: rest) = insertAll idOf s1 rest := by
      simp only [insertAll, hstep, haddeq]
    have hInv1 : StoreInv s1 := inv_add hInv haddeq
    have hlen1 : s1.items.len = s.items.len + 1 := by
      rw [hs1]
      show (s.items.data ++ [some item]).length = s.items.data.length + 1
      simp
    have hcap1 : s1.items.capacity = s.items.capacity := by rw [hs1]
    have hvids1 : s1.vids = insertAL (idOf item) s.items.len s.vids := by rw [hs1]
    have hfresh1 : ∀ it ∈ rest, lookupAL (idOf it) s1.vids = none := by
      intro it hit
      have hne : idOf it ≠ idOf item :=
        fun hh => ((List.pairwise_cons.mp hpw).1 it hit) hh.symm
      rw [hvids1, lookupAL_insertAL_ne (idOf item) (idOf it) s.items.len s.vids hne]
      exact hfresh it (List.mem_cons_of_mem item hit)
    have hcapn : s1.items.len + rest.length ≤ s1.items.capacity := by
      rw [hlen1, hcap1]
      omega
    obtain ⟨s2, hall, hInv2, hlen2, hcap2, hsome2, hnone2, hload2, hmem2⟩ :=
      ih s1 hInv1 hfresh1 (List.pairwise_cons.mp hpw).2 hcapn
    refine ⟨s2, by rw [hrun]; exact hall, hInv2, ?_, ?_, ?_, ?_, ?_, ?_⟩
    · rw [hlen2, hlen1, List.length_cons]
      omega
    · rw [hcap2, hcap1]
    · intro k v hk
      apply hsome2
      have hne : k ≠ idOf item := by
        intro hh
        rw [hh, hitem] at hk
        cases hk
      rw [hvids1, lookupAL_insertAL_ne (idOf item) k s.items.len s.vids hne]
      exact hk
    · intro k hk hnotin
      apply hnone2
      · have hne : k ≠ idOf item :=
          fun hh => (hnotin item (List.mem_cons_self item rest)) hh.symm
        rw [hvids1, lookupAL_insertAL_ne (idOf item) k s.items.len s.vids hne]
        exact hk
      · intro it hit
        exact hnotin it (List.mem_cons_of_mem item hit)
    · intro q hq
      rw [hload2 q (by omega)]
      rw [loadEntry_listRead s1 q, loadEntry_listRead s q, hs1]
      show (listRead (s.items.data ++ [some item]) q).getD none =
        (listRead s.items.data q).getD none
      rw [listRead_append_left s.items.data [some item] q hq]
    · intro it hit
      rcases List.mem_cons.mp hit with heq | hit'
      · subst heq
        have hl1 : lookupAL (idOf it) s1.vids = some s.items.len := by
          rw [hvids1]
          exact lookupAL_insertAL_self (idOf it) s.items.len s.vids
        have hlk2 : lookupAL (idOf it) s2.vids = some s.items.len :=
          hsome2 (idOf it) s.items.len hl1
        have hplt : s.items.len < s2.items.len := by omega
        refine ⟨s.items.len, Reference.get_some s2 (idOf it) s.items.len hlk2 hplt, ?_⟩
        rw [hload2 s.items.len (by omega)]
        rw [loadEntry_listRead s1 s.items.len, hs1]
        show (listRead (s.items.data ++ [some it]) s.items.data.length).getD none =
          some it
        rw [listRead_append_self s.items.data (some it)]
        rfl
      · exact hmem2 it hit'

/-- C1 counterexample: the claim promises that the first `capacity`
new-identifier inserts all succeed, but `Reference::new(capacity)` allocates
an arena of size `capacity` (not `capacity + 1`) and the sentinel occupies
one slot, so on a capacity-1 store already the first new-identifier insert
fails with the wrapped `CapacityExceeded {capacity: 1}`. -/
theorem C1_counterexample :
    Reference.new Foo 1 = some (mkRef 1) ∧
    idFoo ⟨1, 5⟩ ≠ 0 ∧
    Reference.insert Unit idFoo (mkRef 1) ⟨1, 5⟩ =
      (mkRef 1, Except.error (RefError.other (ArrayError.capacityExceeded 1))) :=
  ⟨rfl, by decide, rfl⟩

/-- C1 amended (the counterexample forces `capacity - 1` in place of
`capacity`): on a store built with `new(capacity)`, the first `capacity - 1`
inserts of items with pairwise-distinct, not previously registered (nonzero)
identifiers all succeed; the next such insert returns the
`CapacityExceeded {capacity}` error wrapped as `Other` and leaves the store
state unchanged (the returned state is the same `s2`), so every previously
inserted identifier remains retrievable with unchanged content afterwards
(third conjunct, which holds of that very state). -/
theorem C1_capacity {T : Type} (idOf : T → Int) (c : Nat) (s0 : Reference T)
    (items : List T) (extra : T)
    (hnew : Reference.new T c = some s0)
    (hn : items.length = c - 1)
    (hids : ∀ it ∈ items, idOf it ≠ 0)
    (hpw : items.Pairwise (fun a b => idOf a ≠ idOf b))
    (hex : idOf extra ≠ 0)
    (hexm : ∀ it ∈ items, idOf it ≠ idOf extra) :
    insertAll idOf s0 items = Except.ok (okState s0 (insertAll idOf s0 items)) ∧
    Reference.insert Unit idOf (okState s0 (insertAll idOf s0 items)) extra =
      (okState s0 (insertAll idOf s0 items),
       Except.error (RefError.other (ArrayError.capacityExceeded c))) ∧
    (∀ it ∈ items, ∃ p,
      Reference.get (okState s0 (insertAll idOf s0 items)) (idOf it) = some p ∧
      loadEntry (okState s0 (insertAll idOf s0 items)) p = some it) := by
  obtain ⟨hc1, hlen0, hcap0v, hlookup0⟩ :
      1 ≤ c ∧ s0.items.len = 1 ∧ s0.items.capacity = c ∧
        (∀ k, k ≠ 0 → lookupAL k s0.vids = none) := by
    cases c with
    | zero => simp [Reference.new, RArray.push, RArray.new, RArray.len] at hnew
    | succ c' =>
      simp [Reference.new, RArray.push, RArray.new, RArray.len] at hnew
      subst hnew
      refine ⟨Nat.succ_le_succ (Nat.zero_le c'), rfl, rfl, ?_⟩
      intro k hk
      show lookupAL k (insertAL 0 0 []) = none
      simp only [insertAL, List.filter, lookupAL]
      rw [if_neg (fun hh => hk hh.symm)]
  have hfresh : ∀ it ∈ items, lookupAL (idOf it) s0.vids = none :=
    fun it hit => hlookup0 _ (hids it hit)
  have hcapsum : s0.items.len + items.length ≤ s0.items.capacity := by
    rw [hlen0, hn, hcap0v]
    omega
  obtain ⟨s2, hall, hInv2, hlen2, hcap2, hsome2, hnone2, hload2, hmem2⟩ :=
    insertAll_fresh idOf items s0 (inv_new hnew) hfresh hpw hcapsum
  simp only [hall, okState]
  refine ⟨trivial, ?_, hmem2⟩
  have hlk : lookupAL (idOf extra) s2.vids = none :=
    hnone2 (idOf extra) (hlookup0 _ hex) hexm
  rw [Reference.insert_lookup_none Unit idOf s2 extra hlk]
  have hfull : s2.items.capacity ≤ s2.items.len := by
    rw [hlen2, hlen0, hcap2, hcap0v, hn]
    omega
  rw [Reference.add_full Unit s2 (idOf extra) (some extra) hfull]
  have hcc : s2.items.capacity = c := by rw [hcap2, hcap0v]
  rw [hcc]

/-- C1 witness: on a capacity-2 store the single (= capacity − 1) insert of
`{id 1, name 5}` succeeds and the next fresh-identifier insert fails with
`CapacityExceeded {capacity: 2}` wrapped as `Other`, leaving the state as it
was. -/
theorem C1_witness :
    Reference.new Foo 2 = some (mkRef 2) ∧
    insertAll idFoo (mkRef 2) [⟨1, 5⟩] =
      Except.ok (okState (mkRef 2) (insertAll idFoo (mkRef 2) [⟨1, 5⟩])) ∧
    Reference.insert Unit idFoo
        (okState (mkRef 2) (insertAll idFoo (mkRef 2) [⟨1, 5⟩])) ⟨2, 6⟩ =
      (okState (mkRef 2) (insertAll idFoo (mkRef 2) [⟨1, 5⟩]),
       Except.error (RefError.other (ArrayError.capacityExceeded 2))) := by
  have h := C1_capacity idFoo 2 (mkRef 2) [⟨1, 5⟩] ⟨2, 6⟩ rfl rfl
    (by decide) (by decide) (by decide) (by decide)
  exact ⟨rfl, h.1, h.2.1⟩
